import Mathlib

/-!
Shallow embedding of `src/core.py` of the `useray` repository: the client
lifecycle model (`Client`), the metadata store (a Python dict from id to
`Client`, modelled as an insertion-ordered association list), the v2ray
access list (`V2rayList`, whose in-memory state is a list of id strings),
and the `ClientManager` operations composing them.

Modelling conventions:
* Python `float` timestamps and durations are modelled as `Int`; the claims
  only involve integer arithmetic on them.
* `time.time()` is modelled by an explicit `now : Int` parameter; all calls
  to `time.time()` inside one operation are modelled as returning the same
  value (the process is single-threaded and the calls are adjacent).
* Python dicts preserve insertion order: assignment to a fresh key appends,
  assignment to an existing key updates in place.  `dictGet`/`dictSet`
  implement exactly that on an association list.
* File I/O (`save`, the json rewrite of the v2ray config) is identity on the
  modelled state: the file always mirrors the in-memory data that the code
  writes back, so only the in-memory state is modelled.
* Python exceptions (`KeyError` from a dict subscript, the `ValueError`
  raised by `V2rayList.expire`) are modelled with `Except Err`.
-/

namespace Useray

/-- `class DURATION` constants from `src/core.py`. -/
def ONE_DAY : Int := 86400

/-- `DURATION.ONE_WEEK` from `src/core.py`. -/
def ONE_WEEK : Int := 604800

/-- `DURATION.ONE_MONTH` from `src/core.py`. -/
def ONE_MONTH : Int := 2592000

/-- `DURATION.THREE_MONTHS` from `src/core.py`. -/
def THREE_MONTHS : Int := 7776000

/-- The fields of a `Client` object (`src/core.py`, `class Client`). -/
structure Client where
  name : String
  id : String
  level : Int
  start_date : Int
  duration : Int
  end_date : Int
  is_expired : Bool
deriving Repr, DecidableEq

/-- `Client.__init__`: stores the given fields and computes the derived
`end_date = start_date + duration` and `is_expired = time.time() > end_date`.
`now` models the `time.time()` call in the body. -/
def mkClient (name id : String) (start_date duration level now : Int) : Client :=
  { name := name, id := id, level := level, start_date := start_date,
    duration := duration, end_date := start_date + duration,
    is_expired := decide (start_date + duration < now) }

/-- `Client.update_expiration`: `self.is_expired = time.time() > self.end_date`. -/
def Client.update_expiration (now : Int) (c : Client) : Client :=
  { c with is_expired := decide (c.end_date < now) }

/-- `Client.extend(duration)`: `self.duration += duration`;
`self.end_date = self.start_date + self.duration`;
`self.is_expired = time.time() > self.end_date`.
The Python default argument is `DURATION.ONE_MONTH`. -/
def Client.extend (now delta : Int) (c : Client) : Client :=
  { c with duration := c.duration + delta,
           end_date := c.start_date + (c.duration + delta),
           is_expired := decide (c.start_date + (c.duration + delta) < now) }

/-- `Client.stop`: `self.end_date = time.time() - 1; self.update_expiration()`. -/
def Client.stop (now : Int) (c : Client) : Client :=
  Client.update_expiration now { c with end_date := now - 1 }

/-- `Client.resume`: `self.end_date = self.start_date + self.duration;
self.update_expiration()`. -/
def Client.resume (now : Int) (c : Client) : Client :=
  Client.update_expiration now { c with end_date := c.start_date + c.duration }

/-- `Client.days_left`: `int((self.end_date - time.time()) / DURATION.ONE_DAY)`,
modelled with integer division. -/
def Client.days_left (now : Int) (c : Client) : Int :=
  (c.end_date - now) / ONE_DAY

/-- In Python, a `def`'s default parameter values are evaluated once, when the
`def` statement itself executes — for `Client.__init__` that is when
`class Client` is elaborated at module load.  The default
`start_date: float = time.time()` is therefore a single fixed timestamp
(`defTime` below), shared by every later construction that omits
`start_date`; it is NOT the construction-time clock.  This definition models
`Client(name, id)` with the two remaining defaults `duration=ONE_MONTH`,
`level=1`: `defTime` is the module-load clock value, `now` the clock value at
the construction call. -/
def mkClientDefaultStart (defTime : Int) (name id : String) (now : Int) : Client :=
  mkClient name id defTime ONE_MONTH 1 now

/-- One stored record of the `clients.json` file: the five plain fields of
`Client.__init__` plus optionally cached `end_date` / `is_expired`. -/
structure StoredClient where
  name : String
  id : String
  level : Int
  start_date : Int
  duration : Int
  end_date : Option Int
  is_expired : Option Bool
deriving Repr, DecidableEq

/-- `json_to_client` (`src/core.py`) on one stored record: pop the cached
`end_date` / `is_expired`, build `Client(**value)` (which recomputes the
derived fields), then — when the cached values were present — assign them
back onto the freshly-built object. -/
def storedToClient (now : Int) (s : StoredClient) : Client :=
  let c := mkClient s.name s.id s.start_date s.duration s.level now
  let c := match s.end_date with
    | none => c
    | some e => { c with end_date := e }
  match s.is_expired with
  | none => c
  | some b => { c with is_expired := b }

/-- Errors that the modelled operations can raise: `KeyError` from a Python
dict subscript or `del`, and the `ValueError("Client is not expired")` raised
by `V2rayList.expire`. -/
inductive Err where
  | keyError : Err
  | valueError : Err
deriving Repr, DecidableEq

/-- The `ClientManager._clients` dict: insertion-ordered `id ↦ Client`. -/
abbrev Dict := List (String × Client)

/-- Python dict read `d[k]` / `d.get(k)`: the value at key `k`. -/
def dictGet (d : Dict) (k : String) : Option Client :=
  match d with
  | [] => none
  | (k', v) :: rest => if k' = k then some v else dictGet rest k

/-- Python dict write `d[k] = v`: update in place when the key exists,
append when it is fresh. -/
def dictSet (d : Dict) (k : String) (v : Client) : Dict :=
  match d with
  | [] => [(k, v)]
  | (k', v') :: rest => if k' = k then (k', v) :: rest else (k', v') :: dictSet rest k v

/-- Python `k in d` on a dict. -/
def dictContains (d : Dict) (k : String) : Bool :=
  (dictGet d k).isSome

/-- Helper for `del d[k]`: drop the binding of key `k`. -/
def dictDelFirst : Dict → String → Dict
  | [], _ => []
  | (k', v) :: rest, k => if k' = k then rest else (k', v) :: dictDelFirst rest k

/-- Python `del d[k]`: removes the binding, `KeyError` when the key is absent. -/
def dictDel (d : Dict) (k : String) : Except Err Dict :=
  if dictContains d k then .ok (dictDelFirst d k) else .error .keyError

/-- Python `list.remove(x)` (as used guarded by `x in list`): remove the
first occurrence of `x`. -/
def listRemove : List String → String → List String
  | [], _ => []
  | y :: rest, x => if y = x then rest else y :: listRemove rest x

/-- One entry of the v2ray config file's
`data["inbounds"][0]["settings"]["clients"]` array, restricted to the fields
the core reads. -/
structure VEntry where
  id : String
  level : Int
deriving Repr, DecidableEq

/-- `V2rayList.load`: for each entry of the config's clients array, append
only `client["id"]` to the in-memory list — the entry's `level` is discarded. -/
def v2load (entries : List VEntry) : List String :=
  entries.map VEntry.id

/-- `V2rayList.add(client)`: when `client.id` is not yet in the list, append
it (and mirror the append into the config file); otherwise do nothing. -/
def v2add (c : Client) (v : List String) : List String :=
  if c.id ∈ v then v else v ++ [c.id]

/-- `V2rayList.expire(client)`: recompute the client's expiry
(`client.update_expiration()`, a mutation of the client object itself); raise
`ValueError` when it is not expired; otherwise remove `client.id` from the
list when present.  Returns the (possibly updated) client object together
with the new list. -/
def vexpire (now : Int) (c : Client) (v : List String) : Except Err (Client × List String) :=
  if !(Client.update_expiration now c).is_expired then .error .valueError
  else if c.id ∈ v then .ok (Client.update_expiration now c, listRemove v c.id)
  else .ok (Client.update_expiration now c, v)

/-- The joint state of `ClientManager._clients` and `V2rayList._clients`. -/
structure MState where
  clients : Dict
  vlist : List String
deriving Repr, DecidableEq

/-- `ClientManager.add_client(client)`:
`self._clients[client.id] = client; self._v2ray_list.add(client); self.save()`.
There is no duplicate-id check: an existing binding of `client.id` is
overwritten. -/
def add_client (c : Client) (st : MState) : MState :=
  { clients := dictSet st.clients c.id c, vlist := v2add c st.vlist }

/-- `ClientManager.extend_client(client)`:
`self._clients[client.id].extend(); self.save()`.  The dict subscript raises
`KeyError` when the id is absent; `extend` is called with no argument, hence
with its default `DURATION.ONE_MONTH`.  The call sites pass the stored record
itself, so the operation is modelled on the id. -/
def extend_client (now : Int) (id : String) (st : MState) : Except Err MState :=
  match dictGet st.clients id with
  | none => .error .keyError
  | some c =>
      .ok { clients := dictSet st.clients id (Client.extend now ONE_MONTH c),
            vlist := st.vlist }

/-- `ClientManager.stop_client(client)`:
`self._clients[client.id].stop(); self._v2ray_list.expire(client); self.save()`.
Every call site passes the record stored under its own id, so the `client`
argument aliases `self._clients[client.id]`; the operation is modelled on the
id, with `expire`'s mutation of the shared object written back to the dict. -/
def stop_client (now : Int) (id : String) (st : MState) : Except Err MState :=
  match dictGet st.clients id with
  | none => .error .keyError
  | some c =>
      let c := Client.stop now c
      match vexpire now c st.vlist with
      | .error e => .error e
      | .ok (c, v) => .ok { clients := dictSet st.clients id c, vlist := v }

/-- The side effect of `ClientManager.list_expired` on the dict: the list
comprehension calls `client.update_expiration()` on every stored value. -/
def updAllValues (now : Int) (d : Dict) : Dict :=
  d.map (fun kc => (kc.1, Client.update_expiration now kc.2))

/-- `ClientManager.list_expired()`:
`[client for client in self._clients.values() if client.update_expiration().is_expired]`. -/
def list_expired (now : Int) (d : Dict) : List Client :=
  (updAllValues now d).filterMap (fun kc => if kc.2.is_expired then some kc.2 else none)

/-- The loop body of `ClientManager.clear_expired`: for each already-collected
expired client, `self._v2ray_list.expire(client); del self._clients[client.id]`. -/
def clearLoop (now : Int) : List Client → Dict → List String → Except Err (Dict × List String)
  | [], d, v => .ok (d, v)
  | c :: cs, d, v =>
      match vexpire now c v with
      | .error e => .error e
      | .ok (_, v') =>
          match dictDel d c.id with
          | .error e => .error e
          | .ok d' => clearLoop now cs d' v'

/-- `ClientManager.clear_expired()`: evaluate `list_expired` (updating every
stored record's `is_expired` as a side effect), then run the removal loop,
then save. -/
def clear_expired (now : Int) (st : MState) : Except Err MState :=
  match clearLoop now (list_expired now st.clients) (updAllValues now st.clients) st.vlist with
  | .error e => .error e
  | .ok (d, v) => .ok { clients := d, vlist := v }

/-- First loop of `ClientManager._sync`: for every id in the v2ray list that
is not a key of the dict, insert
`Client("No name", client, time.time(), DURATION.ONE_MONTH)` (level takes its
default `1`). -/
def syncStep1 (now : Int) (cs : Dict) (v : List String) : Dict :=
  v.foldl
    (fun cs id =>
      if dictContains cs id then cs
      else dictSet cs id (mkClient "No name" id now ONE_MONTH 1 now))
    cs

/-- Second loop of `ClientManager._sync`: for every stored client,
`client.update_expiration()`; when it is expired, `self._v2ray_list.expire(client)`
(which recomputes expiry once more on the same shared object and removes the
id from the v2ray list). -/
def syncStep2 (now : Int) : Dict → List String → Except Err (Dict × List String)
  | [], v => .ok ([], v)
  | (k, c) :: rest, v =>
      if (Client.update_expiration now c).is_expired then
        match vexpire now (Client.update_expiration now c) v with
        | .error e => .error e
        | .ok (c', v₁) =>
            match syncStep2 now rest v₁ with
            | .error e => .error e
            | .ok (rest', v') => .ok ((k, c') :: rest', v')
      else
        match syncStep2 now rest v with
        | .error e => .error e
        | .ok (rest', v') => .ok ((k, Client.update_expiration now c) :: rest', v')

/-- `ClientManager._sync` (the startup reconciliation pass): run the two
loops, then save both stores. -/
def sync (now : Int) (st : MState) : Except Err MState :=
  match syncStep2 now (syncStep1 now st.clients st.vlist) st.vlist with
  | .error e => .error e
  | .ok (cs', v') => .ok { clients := cs', vlist := v' }

/-- A client's cached `is_expired` agrees with a recomputation at time `now`. -/
def accurate (now : Int) (c : Client) : Prop :=
  c.is_expired = decide (c.end_date < now)

/- ## Library of lemmas about the embedded operations -/

@[simp]
theorem update_expiration_id (now : Int) (c : Client) :
    (Client.update_expiration now c).id = c.id := rfl

@[simp]
theorem update_expiration_end_date (now : Int) (c : Client) :
    (Client.update_expiration now c).end_date = c.end_date := rfl

@[simp]
theorem update_expiration_name (now : Int) (c : Client) :
    (Client.update_expiration now c).name = c.name := rfl

@[simp]
theorem update_expiration_level (now : Int) (c : Client) :
    (Client.update_expiration now c).level = c.level := rfl

@[simp]
theorem update_expiration_start_date (now : Int) (c : Client) :
    (Client.update_expiration now c).start_date = c.start_date := rfl

@[simp]
theorem update_expiration_duration (now : Int) (c : Client) :
    (Client.update_expiration now c).duration = c.duration := rfl

@[simp]
theorem update_expiration_is_expired (now : Int) (c : Client) :
    (Client.update_expiration now c).is_expired = decide (c.end_date < now) := rfl

theorem accurate_update_expiration (now : Int) (c : Client) :
    accurate now (Client.update_expiration now c) := by
  simp [accurate]

theorem update_expiration_eq_self (now : Int) (c : Client) (h : accurate now c) :
    Client.update_expiration now c = c := by
  cases c
  simp only [accurate] at h
  simp [Client.update_expiration, h]

theorem update_expiration_idem (now : Int) (c : Client) :
    Client.update_expiration now (Client.update_expiration now c)
      = Client.update_expiration now c :=
  update_expiration_eq_self now _ (accurate_update_expiration now c)

theorem listRemove_sublist (v : List String) (x : String) :
    List.Sublist (listRemove v x) v := by
  induction v with
  | nil => simp [listRemove]
  | cons y rest ih =>
      by_cases h : y = x
      · simp only [listRemove, if_pos h]
        exact List.sublist_cons_self y rest
      · simp only [listRemove, if_neg h]
        exact List.Sublist.cons₂ y ih

theorem not_mem_listRemove (v : List String) (x y : String) (h : x ∉ v) :
    x ∉ listRemove v y :=
  fun hmem => h ((listRemove_sublist v y).mem hmem)

theorem not_mem_listRemove_self (v : List String) (x : String) (h : v.count x ≤ 1) :
    x ∉ listRemove v x := by
  induction v with
  | nil => simp [listRemove]
  | cons y rest ih =>
      by_cases hyx : y = x
      · subst hyx
        simp only [listRemove, if_pos rfl]
        rw [List.count_cons_self] at h
        intro hmem
        have : 0 < rest.count y := List.count_pos_iff.mpr hmem
        omega
      · simp only [listRemove, if_neg hyx]
        rw [List.count_cons_of_ne (fun hxy => hyx hxy.symm)] at h
        intro hmem
        rcases List.mem_cons.mp hmem with h1 | h2
        · exact hyx h1.symm
        · exact ih h h2

theorem nodup_listRemove (v : List String) (x : String) (h : v.Nodup) :
    (listRemove v x).Nodup :=
  h.sublist (listRemove_sublist v x)

@[simp]
theorem dictGet_dictSet_self (d : Dict) (k : String) (c : Client) :
    dictGet (dictSet d k c) k = some c := by
  induction d with
  | nil => simp [dictGet, dictSet]
  | cons kv rest ih =>
      obtain ⟨k', v'⟩ := kv
      by_cases h : k' = k
      · simp [dictSet, dictGet, h]
      · simp [dictSet, dictGet, h, ih]

theorem dictGet_dictSet_ne (d : Dict) (k k' : String) (c : Client) (h : k' ≠ k) :
    dictGet (dictSet d k' c) k = dictGet d k := by
  induction d with
  | nil => simp [dictGet, dictSet, h]
  | cons kv rest ih =>
      obtain ⟨k₀, v₀⟩ := kv
      by_cases h0 : k₀ = k'
      · subst h0
        simp [dictSet, dictGet, h]
      · simp only [dictSet, if_neg h0]
        by_cases h1 : k₀ = k
        · simp [dictGet, h1]
        · simp [dictGet, h1, ih]

theorem dictContains_dictSet (d : Dict) (k k' : String) (c : Client) :
    dictContains d k = true → dictContains (dictSet d k' c) k = true := by
  intro h
  by_cases hk : k' = k
  · subst hk
    simp [dictContains]
  · simpa [dictContains, dictGet_dictSet_ne d k k' c hk] using h

@[simp]
theorem dictContains_dictSet_self (d : Dict) (k : String) (c : Client) :
    dictContains (dictSet d k c) k = true := by
  simp [dictContains]

@[simp]
theorem dictGet_updAllValues (now : Int) (d : Dict) (k : String) :
    dictGet (updAllValues now d) k = (dictGet d k).map (Client.update_expiration now) := by
  induction d with
  | nil => simp [updAllValues, dictGet]
  | cons kv rest ih =>
      obtain ⟨k', c⟩ := kv
      by_cases h : k' = k
      · simp [updAllValues, dictGet, h]
      · simpa [updAllValues, dictGet, h] using ih

theorem dictContains_updAllValues (now : Int) (d : Dict) (k : String) :
    dictContains (updAllValues now d) k = dictContains d k := by
  simp only [dictContains, dictGet_updAllValues]
  cases dictGet d k <;> simp

theorem mem_updAllValues_fixed (now : Int) (d : Dict) (k : String) (c : Client)
    (h : (k, c) ∈ updAllValues now d) : Client.update_expiration now c = c := by
  simp only [updAllValues, List.mem_map] at h
  obtain ⟨⟨k0, c0⟩, _, heq⟩ := h
  have hc : c = Client.update_expiration now c0 := by
    have := congrArg Prod.snd heq
    simpa using this.symm
  rw [hc]
  exact update_expiration_idem now c0

theorem vexpire_updated (now : Int) (c : Client) (v : List String)
    (h : (Client.update_expiration now c).is_expired = true) :
    vexpire now (Client.update_expiration now c) v =
      if c.id ∈ v then .ok (Client.update_expiration now c, listRemove v c.id)
      else .ok (Client.update_expiration now c, v) := by
  simp only [vexpire, update_expiration_idem, h, Bool.not_true, update_expiration_id]
  simp

theorem syncStep1_cons (now : Int) (cs : Dict) (id : String) (v : List String) :
    syncStep1 now cs (id :: v) =
      syncStep1 now
        (if dictContains cs id then cs
         else dictSet cs id (mkClient "No name" id now ONE_MONTH 1 now)) v := rfl

theorem syncStep1_contains_mono (now : Int) (v : List String) :
    ∀ cs k, dictContains cs k = true → dictContains (syncStep1 now cs v) k = true := by
  induction v with
  | nil => intro cs k h; exact h
  | cons id rest ih =>
      intro cs k h
      rw [syncStep1_cons]
      apply ih
      by_cases hc : dictContains cs id = true
      · simpa [hc] using h
      · simp only [hc]
        simp only [Bool.false_eq_true, if_false]
        exact dictContains_dictSet cs k id _ h

theorem syncStep1_contains_of_mem (now : Int) (v : List String) :
    ∀ cs id, id ∈ v → dictContains (syncStep1 now cs v) id = true := by
  induction v with
  | nil => intro cs id h; cases h
  | cons id0 rest ih =>
      intro cs id h
      rcases List.mem_cons.mp h with h1 | h2
      · subst h1
        rw [syncStep1_cons]
        apply syncStep1_contains_mono
        by_cases hc : dictContains cs id = true
        · simp [hc]
        · simp [hc]
      · rw [syncStep1_cons]
        exact ih _ _ h2

theorem syncStep1_eq_self (now : Int) (v : List String) :
    ∀ cs, (∀ id ∈ v, dictContains cs id = true) → syncStep1 now cs v = cs := by
  induction v with
  | nil => intro cs _; rfl
  | cons id rest ih =>
      intro cs h
      rw [syncStep1_cons]
      have h0 := h id (List.mem_cons_self id rest)
      rw [if_pos h0]
      exact ih cs (fun i hi => h i (List.mem_cons_of_mem _ hi))

theorem syncStep1_get_of_get (now : Int) (v : List String) :
    ∀ cs k c, dictGet cs k = some c → dictGet (syncStep1 now cs v) k = some c := by
  induction v with
  | nil => intro cs k c h; exact h
  | cons id rest ih =>
      intro cs k c h
      rw [syncStep1_cons]
      apply ih
      by_cases hc : dictContains cs id = true
      · simpa [hc] using h
      · have hne : id ≠ k := by
          intro he
          subst he
          simp [dictContains, h] at hc
        simp only [hc, Bool.false_eq_true, if_false]
        rw [dictGet_dictSet_ne cs k id _ hne]
        exact h

theorem syncStep1_get_placeholder (now : Int) (v : List String) :
    ∀ cs id, id ∈ v → dictContains cs id = false →
      dictGet (syncStep1 now cs v) id = some (mkClient "No name" id now ONE_MONTH 1 now) := by
  induction v with
  | nil => intro cs id h; cases h
  | cons id0 rest ih =>
      intro cs id h hc
      rw [syncStep1_cons]
      by_cases he : id0 = id
      · subst he
        rw [if_neg (by simp [hc])]
        exact syncStep1_get_of_get now rest _ id0 _ (dictGet_dictSet_self cs id0 _)
      · rcases List.mem_cons.mp h with h1 | h2
        · exact absurd h1.symm he
        · by_cases hc0 : dictContains cs id0 = true
          · rw [if_pos hc0]
            exact ih cs id h2 hc
          · rw [if_neg hc0]
            apply ih _ id h2
            simp only [dictContains, dictGet_dictSet_ne cs id id0 _ he]
            simpa [dictContains] using hc

theorem syncStep2_ok (now : Int) (d : Dict) :
    ∀ v, ∃ v', syncStep2 now d v = .ok (updAllValues now d, v') ∧ List.Sublist v' v := by
  induction d with
  | nil =>
      intro v
      exact ⟨v, rfl, List.Sublist.refl v⟩
  | cons kc rest ih =>
      obtain ⟨k, c⟩ := kc
      intro v
      simp only [syncStep2]
      by_cases he : (Client.update_expiration now c).is_expired = true
      · rw [if_pos he, vexpire_updated now c v he]
        by_cases hm : c.id ∈ v
        · rw [if_pos hm]
          obtain ⟨v', hrec, hsub⟩ := ih (listRemove v c.id)
          dsimp only
          rw [hrec]
          exact ⟨v', by simp [updAllValues], hsub.trans (listRemove_sublist v c.id)⟩
        · rw [if_neg hm]
          obtain ⟨v', hrec, hsub⟩ := ih v
          dsimp only
          rw [hrec]
          exact ⟨v', by simp [updAllValues], hsub⟩
      · rw [if_neg he]
        obtain ⟨v', hrec, hsub⟩ := ih v
        rw [hrec]
        exact ⟨v', by simp [updAllValues], hsub⟩

theorem syncStep2_ok_elim (now : Int) (d : Dict) (v : List String) (d' : Dict)
    (v' : List String) (h : syncStep2 now d v = .ok (d', v')) :
    d' = updAllValues now d ∧ List.Sublist v' v := by
  obtain ⟨v'', heq, hsub⟩ := syncStep2_ok now d v
  rw [heq] at h
  simp only [Except.ok.injEq, Prod.mk.injEq] at h
  exact ⟨h.1.symm, h.2 ▸ hsub⟩

theorem syncStep2_expired_not_mem (now : Int) (d : Dict) :
    ∀ v d' v', v.Nodup → syncStep2 now d v = .ok (d', v') →
      ∀ k c, (k, c) ∈ d' → c.is_expired = true → c.id ∉ v' := by
  induction d with
  | nil =>
      intro v d' v' _ h k c hmem _
      simp only [syncStep2, Except.ok.injEq, Prod.mk.injEq] at h
      rw [← h.1] at hmem
      cases hmem
  | cons kc rest ih =>
      obtain ⟨k0, c0⟩ := kc
      intro v d' v' hnd h k c hmem hexp
      simp only [syncStep2] at h
      by_cases he : (Client.update_expiration now c0).is_expired = true
      · rw [if_pos he, vexpire_updated now c0 v he] at h
        by_cases hm : c0.id ∈ v
        · rw [if_pos hm] at h
          dsimp only at h
          cases hrec : syncStep2 now rest (listRemove v c0.id) with
          | error e => rw [hrec] at h; cases h
          | ok p =>
              obtain ⟨rest', vr⟩ := p
              rw [hrec] at h
              simp only [Except.ok.injEq, Prod.mk.injEq] at h
              obtain ⟨h1, h2⟩ := h
              rw [← h1] at hmem
              rw [← h2]
              have hnr : c0.id ∉ listRemove v c0.id :=
                not_mem_listRemove_self v c0.id
                  (List.nodup_iff_count_le_one.mp hnd c0.id)
              have hsubr : List.Sublist vr (listRemove v c0.id) :=
                (syncStep2_ok_elim now rest _ _ _ hrec).2
              rcases List.mem_cons.mp hmem with hh | ht
              · have hcc : c = Client.update_expiration now c0 := by
                  have := congrArg Prod.snd hh
                  simpa using this
                rw [hcc, update_expiration_id]
                intro hvr
                exact hnr (hsubr.mem hvr)
              · exact ih _ _ _ (nodup_listRemove v c0.id hnd) hrec k c ht hexp
        · rw [if_neg hm] at h
          dsimp only at h
          cases hrec : syncStep2 now rest v with
          | error e => rw [hrec] at h; cases h
          | ok p =>
              obtain ⟨rest', vr⟩ := p
              rw [hrec] at h
              simp only [Except.ok.injEq, Prod.mk.injEq] at h
              obtain ⟨h1, h2⟩ := h
              rw [← h1] at hmem
              rw [← h2]
              have hsubr : List.Sublist vr v :=
                (syncStep2_ok_elim now rest _ _ _ hrec).2
              rcases List.mem_cons.mp hmem with hh | ht
              · have hcc : c = Client.update_expiration now c0 := by
                  have := congrArg Prod.snd hh
                  simpa using this
                rw [hcc, update_expiration_id]
                intro hvr
                exact hm (hsubr.mem hvr)
              · exact ih _ _ _ hnd hrec k c ht hexp
      · rw [if_neg he] at h
        cases hrec : syncStep2 now rest v with
        | error e => rw [hrec] at h; cases h
        | ok p =>
            obtain ⟨rest', vr⟩ := p
            rw [hrec] at h
            simp only [Except.ok.injEq, Prod.mk.injEq] at h
            obtain ⟨h1, h2⟩ := h
            rw [← h1] at hmem
            rw [← h2]
            rcases List.mem_cons.mp hmem with hh | ht
            · have hcc : c = Client.update_expiration now c0 := by
                have := congrArg Prod.snd hh
                simpa using this
              rw [hcc] at hexp
              exact absurd hexp he
            · exact ih _ _ _ hnd hrec k c ht hexp

theorem syncStep2_fixed (now : Int) (d : Dict) :
    ∀ v, (∀ k c, (k, c) ∈ d → Client.update_expiration now c = c) →
      (∀ k c, (k, c) ∈ d → c.is_expired = true → c.id ∉ v) →
      syncStep2 now d v = .ok (d, v) := by
  induction d with
  | nil => intro v _ _; rfl
  | cons kc rest ih =>
      obtain ⟨k0, c0⟩ := kc
      intro v hacc hexp
      have h0 : Client.update_expiration now c0 = c0 :=
        hacc k0 c0 (List.mem_cons_self _ _)
      have ihr : syncStep2 now rest v = .ok (rest, v) :=
        ih v (fun k c hm => hacc k c (List.mem_cons_of_mem _ hm))
          (fun k c hm => hexp k c (List.mem_cons_of_mem _ hm))
      simp only [syncStep2, h0]
      by_cases he : c0.is_expired = true
      · rw [if_pos he]
        have hm : c0.id ∉ v := hexp k0 c0 (List.mem_cons_self _ _) he
        have hv : vexpire now c0 v = .ok (c0, v) := by
          simp only [vexpire, h0, he, Bool.not_true, Bool.false_eq_true, if_false]
          rw [if_neg hm]
        rw [hv]
        dsimp only
        rw [ihr]
      · rw [if_neg he, ihr]

theorem sync_shape (now : Int) (st : MState) :
    ∃ v', sync now st =
        .ok { clients := updAllValues now (syncStep1 now st.clients st.vlist),
              vlist := v' } ∧
      List.Sublist v' st.vlist := by
  obtain ⟨v', heq, hsub⟩ := syncStep2_ok now (syncStep1 now st.clients st.vlist) st.vlist
  exact ⟨v', by simp only [sync, heq], hsub⟩

@[simp]
theorem stop_id (now : Int) (c : Client) : (Client.stop now c).id = c.id := rfl

@[simp]
theorem stop_start_date (now : Int) (c : Client) :
    (Client.stop now c).start_date = c.start_date := rfl

@[simp]
theorem stop_duration (now : Int) (c : Client) :
    (Client.stop now c).duration = c.duration := rfl

@[simp]
theorem stop_end_date (now : Int) (c : Client) :
    (Client.stop now c).end_date = now - 1 := rfl

theorem stop_is_expired (now : Int) (c : Client) :
    (Client.stop now c).is_expired = true := by
  simp only [Client.stop, Client.update_expiration]
  simp only [decide_eq_true_eq]
  omega

theorem vexpire_stop (now : Int) (c : Client) (v : List String) :
    vexpire now (Client.stop now c) v =
      if c.id ∈ v then .ok (Client.stop now c, listRemove v c.id)
      else .ok (Client.stop now c, v) := by
  have hupd : Client.update_expiration now (Client.stop now c) = Client.stop now c :=
    update_expiration_idem now _
  simp only [vexpire, hupd, stop_is_expired, Bool.not_true, Bool.false_eq_true, if_false,
    stop_id]

theorem mem_list_expired (now : Int) (d : Dict) (c : Client)
    (h : c ∈ list_expired now d) :
    Client.update_expiration now c = c ∧ c.is_expired = true := by
  simp only [list_expired, List.mem_filterMap] at h
  obtain ⟨⟨k, c0⟩, hmem, hif⟩ := h
  by_cases he : c0.is_expired = true
  · rw [if_pos he] at hif
    have hc : c0 = c := by simpa using hif
    rw [← hc]
    exact ⟨mem_updAllValues_fixed now d k c0 hmem, he⟩
  · rw [if_neg he] at hif
    cases hif

theorem clearLoop_no_valueError (now : Int) (cs : List Client) :
    ∀ d v, (∀ c ∈ cs, Client.update_expiration now c = c ∧ c.is_expired = true) →
      clearLoop now cs d v ≠ .error .valueError := by
  induction cs with
  | nil =>
      intro d v _ h
      cases h
  | cons c cs ih =>
      intro d v hc
      obtain ⟨hfix, hexp⟩ := hc c (List.mem_cons_self _ _)
      have hv : vexpire now c v =
          if c.id ∈ v then .ok (c, listRemove v c.id) else .ok (c, v) := by
        simp only [vexpire, hfix, hexp, Bool.not_true, Bool.false_eq_true, if_false]
      have htail : ∀ c' ∈ cs, Client.update_expiration now c' = c' ∧ c'.is_expired = true :=
        fun c' hm => hc c' (List.mem_cons_of_mem _ hm)
      simp only [clearLoop, hv]
      by_cases hm : c.id ∈ v
      · rw [if_pos hm]
        dsimp only
        by_cases hcont : dictContains d c.id = true
        · simp only [dictDel, hcont, if_true]
          exact ih _ _ htail
        · simp only [dictDel, hcont, Bool.false_eq_true, if_false]
          intro habs
          cases habs
      · rw [if_neg hm]
        dsimp only
        by_cases hcont : dictContains d c.id = true
        · simp only [dictDel, hcont, if_true]
          exact ih _ _ htail
        · simp only [dictDel, hcont, Bool.false_eq_true, if_false]
          intro habs
          cases habs

/- ## Claims -/

/-- Claim C1: for every client record, `end_date = start_date + duration` holds
immediately after construction (`Client.__init__`), after `extend` and after
`reinstate` (`Client.resume`); and the remaining record operation that touches
any field, `update_expiration`, preserves the invariant — so no record
operation other than `revoke` (`Client.stop`) can leave
`end_date ≠ start_date + duration`. -/
theorem C1_end_date_invariant :
    (∀ name id start_date duration level now,
      (mkClient name id start_date duration level now).end_date =
        (mkClient name id start_date duration level now).start_date +
          (mkClient name id start_date duration level now).duration) ∧
    (∀ now delta c,
      (Client.extend now delta c).end_date =
        (Client.extend now delta c).start_date + (Client.extend now delta c).duration) ∧
    (∀ now c,
      (Client.resume now c).end_date =
        (Client.resume now c).start_date + (Client.resume now c).duration) ∧
    (∀ now c, c.end_date = c.start_date + c.duration →
      (Client.update_expiration now c).end_date =
        (Client.update_expiration now c).start_date +
          (Client.update_expiration now c).duration) := by
  refine ⟨fun _ _ _ _ _ _ => rfl, fun _ _ _ => rfl, fun _ _ => rfl, fun now c h => ?_⟩
  simpa using h

/-- Witness for C1 at concrete inputs. -/
theorem C1_witness :
    (Client.update_expiration 7 (mkClient "a" "b" 1 2 3 4)).end_date =
      (Client.update_expiration 7 (mkClient "a" "b" 1 2 3 4)).start_date +
        (Client.update_expiration 7 (mkClient "a" "b" 1 2 3 4)).duration :=
  C1_end_date_invariant.2.2.2 7 (mkClient "a" "b" 1 2 3 4) (by decide)

/-- Counterexample to C2: `add_client` for an id already bound in the metadata
store raises nothing and does not leave the stores unchanged — at this input
the stored record is overwritten by the new one. -/
theorem C2_counterexample :
    add_client (mkClient "new" "a" 0 5 1 0)
        { clients := [("a", mkClient "old" "a" 0 9 1 0)], vlist := ["a"] } ≠
      { clients := [("a", mkClient "old" "a" 0 9 1 0)], vlist := ["a"] } := by
  decide

/-- Claim C2 (amended): `ClientManager.add_client` performs no duplicate-id
check and raises no error; for a record whose id is already bound in the
metadata store and already present in the access list (as the cross-store
invariant guarantees), the metadata binding is silently overwritten with the
new record and the access list is left unchanged (`V2rayList.add` is a no-op
for a present id). -/
theorem C2_add_overwrites (c : Client) (st : MState)
    (_hdup : dictContains st.clients c.id = true) (hv : c.id ∈ st.vlist) :
    (add_client c st).clients = dictSet st.clients c.id c ∧
    dictGet (add_client c st).clients c.id = some c ∧
    (add_client c st).vlist = st.vlist := by
  refine ⟨rfl, by simp [add_client], ?_⟩
  simp [add_client, v2add, hv]

/-- Witness for C2 at concrete inputs. -/
theorem C2_witness :
    (add_client (mkClient "new" "a" 0 5 1 0)
        { clients := [("a", mkClient "old" "a" 0 9 1 0)], vlist := ["a"] }).clients =
      dictSet [("a", mkClient "old" "a" 0 9 1 0)] "a" (mkClient "new" "a" 0 5 1 0) ∧
    dictGet (add_client (mkClient "new" "a" 0 5 1 0)
        { clients := [("a", mkClient "old" "a" 0 9 1 0)], vlist := ["a"] }).clients "a" =
      some (mkClient "new" "a" 0 5 1 0) ∧
    (add_client (mkClient "new" "a" 0 5 1 0)
        { clients := [("a", mkClient "old" "a" 0 9 1 0)], vlist := ["a"] }).vlist = ["a"] :=
  C2_add_overwrites (mkClient "new" "a" 0 5 1 0)
    { clients := [("a", mkClient "old" "a" 0 9 1 0)], vlist := ["a"] }
    (by decide) (by decide)

/-- Counterexample to C3: a v2ray config entry with `level = 5` whose id is
absent from the metadata store yields, after `V2rayList.load` and the
reconciliation pass, a placeholder with `level = 1` — the access entry's level
is not copied (the in-memory access list retains only ids). -/
theorem C3_counterexample :
    (sync 100 { clients := [], vlist := v2load [{ id := "aaa", level := 5 }] }).toOption.bind
        (fun st => (dictGet st.clients "aaa").map Client.level) = some 1 ∧
    some (1 : Int) ≠ some (5 : Int) :=
  ⟨rfl, by decide⟩

/-- Claim C3 (amended): for every id present in the access list but absent from
the metadata store, the reconciliation pass inserts a placeholder record with
name `"No name"`, `start_date = now`, `duration = ONE_MONTH`, and `level = 1`
(the `Client` constructor default) — not the level of the id's access entry,
which `V2rayList.load` discards. -/
theorem C3_sync_placeholder (now : Int) (st : MState) (id : String)
    (hmem : id ∈ st.vlist) (habs : dictContains st.clients id = false) :
    ∃ st' c, sync now st = .ok st' ∧ dictGet st'.clients id = some c ∧
      c.name = "No name" ∧ c.start_date = now ∧ c.duration = ONE_MONTH ∧ c.level = 1 := by
  obtain ⟨v', heq, _⟩ := sync_shape now st
  refine ⟨_, Client.update_expiration now (mkClient "No name" id now ONE_MONTH 1 now),
    heq, ?_, rfl, rfl, rfl, rfl⟩
  rw [dictGet_updAllValues, syncStep1_get_placeholder now st.vlist st.clients id hmem habs]
  rfl

/-- Witness for C3 at concrete inputs. -/
theorem C3_witness :
    ∃ st' c, sync 100 { clients := [], vlist := ["aaa"] } = .ok st' ∧
      dictGet st'.clients "aaa" = some c ∧
      c.name = "No name" ∧ c.start_date = 100 ∧ c.duration = ONE_MONTH ∧ c.level = 1 :=
  C3_sync_placeholder 100 { clients := [], vlist := ["aaa"] } "aaa" (by decide) (by decide)

/-- Counterexample to C4: when the access list holds the revoked id twice
(`V2rayList.load` does not deduplicate a config that lists an id twice),
`stop_client` removes only the first occurrence — the id is still present in
the access list afterwards. -/
theorem C4_counterexample :
    (stop_client 50 "a"
        { clients := [("a", mkClient "n" "a" 0 10 1 0)],
          vlist := ["a", "a"] }).toOption.map MState.vlist = some ["a"] ∧
    "a" ∈ (["a"] : List String) :=
  ⟨rfl, by decide⟩

/-- Claim C4 (amended): for an id bound in the metadata store to a record
carrying that id, with the id occurring at most once in the access list (as
every list the tool itself builds does), `stop_client` removes the id from the
access list while the record remains retrievable from the metadata store with
`is_expired = true`. -/
theorem C4_revoke_keeps_record (now : Int) (id : String) (st : MState) (c : Client)
    (hget : dictGet st.clients id = some c) (hid : c.id = id)
    (hcount : st.vlist.count id ≤ 1) :
    ∃ st', stop_client now id st = .ok st' ∧ id ∉ st'.vlist ∧
      ∃ r, dictGet st'.clients id = some r ∧ r.is_expired = true := by
  simp only [stop_client, hget]
  rw [vexpire_stop, hid]
  by_cases hm : id ∈ st.vlist
  · rw [if_pos hm]
    refine ⟨_, rfl, ?_, Client.stop now c, ?_, stop_is_expired now c⟩
    · exact not_mem_listRemove_self st.vlist id hcount
    · exact dictGet_dictSet_self st.clients id _
  · rw [if_neg hm]
    refine ⟨_, rfl, hm, Client.stop now c, ?_, stop_is_expired now c⟩
    exact dictGet_dictSet_self st.clients id _

/-- Witness for C4 at concrete inputs. -/
theorem C4_witness :
    ∃ st', stop_client 50 "a"
        { clients := [("a", mkClient "n" "a" 0 10 1 0)],
          vlist := ["a"] } = .ok st' ∧ "a" ∉ st'.vlist ∧
      ∃ r, dictGet st'.clients "a" = some r ∧ r.is_expired = true :=
  C4_revoke_keeps_record 50 "a"
    { clients := [("a", mkClient "n" "a" 0 10 1 0)], vlist := ["a"] }
    (mkClient "n" "a" 0 10 1 0) (by decide) rfl (by decide)

/-- Counterexample to C5: a stored record whose cached `end_date` (999) and
`is_expired` (true) disagree with recomputation (`start_date + duration = 150`,
and at `now = 10` a recomputed expiry flag would be `false`) keeps the cached
values after `json_to_client`: they are trusted, not discarded. -/
theorem C5_counterexample :
    (storedToClient 10
        { name := "n", id := "i", level := 1, start_date := 100,
          duration := 50, end_date := some 999, is_expired := some true }).end_date = 999 ∧
    (999 : Int) ≠ 100 + 50 ∧
    (storedToClient 10
        { name := "n", id := "i", level := 1, start_date := 100,
          duration := 50, end_date := some 999, is_expired := some true }).is_expired = true ∧
    (true : Bool) ≠ decide ((100 + 50 : Int) < 10) :=
  ⟨rfl, by decide, rfl, by decide⟩

/-- Claim C5 (amended): on load, a cached `end_date` or `is_expired` present in
a stored record is popped from the raw data and then assigned back verbatim
onto the rebuilt record — trusted as a stored fact, not discarded; only when a
cached field is absent does the record keep the value recomputed from
`start_date`, `duration` and the current time. -/
theorem C5_load_trusts_cache (now : Int) (s : StoredClient) (e : Int) (b : Bool)
    (he : s.end_date = some e) (hb : s.is_expired = some b) :
    (storedToClient now s).end_date = e ∧ (storedToClient now s).is_expired = b := by
  simp [storedToClient, he, hb]

/-- Witness for C5 at concrete inputs. -/
theorem C5_witness :
    (storedToClient 10
        { name := "n", id := "i", level := 1, start_date := 100,
          duration := 50, end_date := some 77, is_expired := some false }).end_date = 77 ∧
    (storedToClient 10
        { name := "n", id := "i", level := 1, start_date := 100,
          duration := 50, end_date := some 77, is_expired := some false }).is_expired = false :=
  C5_load_trusts_cache 10
    { name := "n", id := "i", level := 1, start_date := 100, duration := 50,
      end_date := some 77, is_expired := some false } 77 false rfl rfl

/-- Counterexample to C6: `ClientManager.extend_client` accepts no delta — on a
record with `duration = 2592000` it extends by the default
`DURATION.ONE_MONTH`, yielding `duration = 5184000`, not the `3196800` that the
claim's `delta = 604800` instance predicts. -/
theorem C6_counterexample :
    (extend_client 0 "a"
        { clients := [("a", mkClient "n" "a" 0 2592000 1 0)],
          vlist := ["a"] }).toOption.bind
      (fun st => (dictGet st.clients "a").map Client.duration) = some 5184000 ∧
    (5184000 : Int) ≠ 2592000 + 604800 :=
  ⟨rfl, by decide⟩

/-- Claim C6 (amended): `Client.extend(delta)` increases `duration` by exactly
`delta` and shifts `end_date` to `start_date + duration + delta`;
`ClientManager.extend_client`, however, takes no delta and always extends the
stored record by the default `DURATION.ONE_MONTH = 2592000`, re-deriving
`end_date` and leaving access-list membership unchanged. -/
theorem C6_extend_by_default (now delta : Int) (c : Client) (id : String)
    (st : MState) (c0 : Client) (hget : dictGet st.clients id = some c0) :
    (Client.extend now delta c).duration = c.duration + delta ∧
    (Client.extend now delta c).end_date = c.start_date + c.duration + delta ∧
    (∃ st', extend_client now id st = .ok st' ∧
      (∃ r, dictGet st'.clients id = some r ∧ r.duration = c0.duration + ONE_MONTH ∧
        r.end_date = r.start_date + r.duration) ∧
      st'.vlist = st.vlist) := by
  refine ⟨rfl, by simp [Client.extend]; ring, ?_⟩
  simp only [extend_client, hget]
  exact ⟨_, rfl, ⟨Client.extend now ONE_MONTH c0,
    dictGet_dictSet_self st.clients id _, rfl, rfl⟩, rfl⟩

/-- Witness for C6 at concrete inputs. -/
theorem C6_witness :
    (Client.extend 0 604800 (mkClient "n" "a" 0 2592000 1 0)).duration =
      2592000 + 604800 ∧
    (Client.extend 0 604800 (mkClient "n" "a" 0 2592000 1 0)).end_date =
      0 + 2592000 + 604800 ∧
    (∃ st', extend_client 0 "a"
        { clients := [("a", mkClient "n" "a" 0 2592000 1 0)],
          vlist := ["a"] } = .ok st' ∧
      (∃ r, dictGet st'.clients "a" = some r ∧ r.duration = 2592000 + ONE_MONTH ∧
        r.end_date = r.start_date + r.duration) ∧
      st'.vlist = ["a"]) :=
  C6_extend_by_default 0 604800 (mkClient "n" "a" 0 2592000 1 0) "a"
    { clients := [("a", mkClient "n" "a" 0 2592000 1 0)], vlist := ["a"] }
    (mkClient "n" "a" 0 2592000 1 0) (by decide)

/-- Counterexample to C7: with the id `"a"` listed twice in the access list
(possible only by loading a config that lists it twice) and an expired record
for it, the first reconciliation run removes one copy and the second run
removes the other — the second run changes the stores. -/
theorem C7_counterexample :
    (sync 100
        { clients := [("a", mkClient "n" "a" 0 10 1 50)],
          vlist := ["a", "a"] }).toOption =
      some { clients := [("a", mkClient "n" "a" 0 10 1 50)], vlist := ["a"] } ∧
    (sync 100
        { clients := [("a", mkClient "n" "a" 0 10 1 50)],
          vlist := ["a"] }).toOption ≠
      some { clients := [("a", mkClient "n" "a" 0 10 1 50)], vlist := ["a"] } := by
  constructor
  · rfl
  · decide

/-- Claim C7 (amended): the reconciliation pass is idempotent on every pair of
store states whose access list holds no duplicate ids (every access list the
tool itself produces is duplicate-free): running `_sync` a second time at the
same clock value reproduces exactly the stores the first run left. -/
theorem C7_sync_idempotent (now : Int) (st st' : MState)
    (hnd : st.vlist.Nodup) (h : sync now st = .ok st') :
    sync now st' = .ok st' := by
  obtain ⟨v', heq2, hsub⟩ := syncStep2_ok now (syncStep1 now st.clients st.vlist) st.vlist
  have hsync : sync now st =
      .ok { clients := updAllValues now (syncStep1 now st.clients st.vlist),
            vlist := v' } := by
    simp only [sync, heq2]
  rw [hsync] at h
  have hst : st' =
      { clients := updAllValues now (syncStep1 now st.clients st.vlist),
        vlist := v' } := by
    simp only [Except.ok.injEq] at h
    exact h.symm
  subst hst
  have hcov : ∀ id ∈ v',
      dictContains (updAllValues now (syncStep1 now st.clients st.vlist)) id = true := by
    intro id hid
    rw [dictContains_updAllValues]
    exact syncStep1_contains_of_mem now st.vlist st.clients id (hsub.mem hid)
  have hstep1 : syncStep1 now (updAllValues now (syncStep1 now st.clients st.vlist)) v' =
      updAllValues now (syncStep1 now st.clients st.vlist) :=
    syncStep1_eq_self now v' _ hcov
  have hfix : ∀ k c, (k, c) ∈ updAllValues now (syncStep1 now st.clients st.vlist) →
      Client.update_expiration now c = c :=
    fun k c hm => mem_updAllValues_fixed now _ k c hm
  have hexp : ∀ k c, (k, c) ∈ updAllValues now (syncStep1 now st.clients st.vlist) →
      c.is_expired = true → c.id ∉ v' :=
    syncStep2_expired_not_mem now (syncStep1 now st.clients st.vlist) st.vlist _ v'
      hnd heq2
  have hstep2 := syncStep2_fixed now
    (updAllValues now (syncStep1 now st.clients st.vlist)) v' hfix hexp
  simp only [sync, hstep1, hstep2]

/-- Witness for C7 at concrete inputs. -/
theorem C7_witness :
    sync 0
        { clients := [("a", mkClient "No name" "a" 0 ONE_MONTH 1 0)],
          vlist := ["a"] } =
      .ok { clients := [("a", mkClient "No name" "a" 0 ONE_MONTH 1 0)],
            vlist := ["a"] } :=
  C7_sync_idempotent 0 { clients := [], vlist := ["a"] }
    { clients := [("a", mkClient "No name" "a" 0 ONE_MONTH 1 0)], vlist := ["a"] }
    (by decide) (by rfl)

/-- Claim C8: `revoke` (`Client.stop`) followed by `reinstate` (`Client.resume`)
restores the original `end_date` exactly for every record satisfying the
derived-field invariant `end_date = start_date + duration`, because `stop`
modifies neither `start_date` nor `duration`. -/
theorem C8_stop_resume_restores (now1 now2 : Int) (c : Client)
    (h : c.end_date = c.start_date + c.duration) :
    (Client.resume now2 (Client.stop now1 c)).end_date = c.end_date ∧
    (Client.stop now1 c).start_date = c.start_date ∧
    (Client.stop now1 c).duration = c.duration := by
  refine ⟨?_, rfl, rfl⟩
  simp [Client.resume, Client.stop, Client.update_expiration, h]

/-- Witness for C8 at concrete inputs. -/
theorem C8_witness :
    (Client.resume 9 (Client.stop 5 (mkClient "a" "b" 10 20 1 0))).end_date =
      (mkClient "a" "b" 10 20 1 0).end_date :=
  (C8_stop_resume_restores 5 9 (mkClient "a" "b" 10 20 1 0) (by decide)).1

/-- Claim C9: the `ValueError("Client is not expired")` of `V2rayList.expire`
is unreachable from every `ClientManager` path that calls it — `stop_client`
forces expiry via `Client.stop` first, `clear_expired` iterates only records
whose expiry was just recomputed as true, and `_sync` recomputes expiry
immediately before calling `expire`; the only error those paths can produce is
a dict `KeyError`, and `_sync` can produce no error at all. -/
theorem C9_valueError_unreachable :
    (∀ now id st, stop_client now id st ≠ .error .valueError) ∧
    (∀ now st, clear_expired now st ≠ .error .valueError) ∧
    (∀ now st e, sync now st ≠ .error e) := by
  refine ⟨?_, ?_, ?_⟩
  · intro now id st
    cases hget : dictGet st.clients id with
    | none =>
        simp only [stop_client, hget]
        intro h
        cases h
    | some c =>
        simp only [stop_client, hget]
        rw [vexpire_stop]
        by_cases hm : c.id ∈ st.vlist
        · rw [if_pos hm]
          intro h
          cases h
        · rw [if_neg hm]
          intro h
          cases h
  · intro now st
    have hloop := clearLoop_no_valueError now (list_expired now st.clients)
      (updAllValues now st.clients) st.vlist
      (fun c hm => mem_list_expired now st.clients c hm)
    simp only [clear_expired]
    cases hres : clearLoop now (list_expired now st.clients)
        (updAllValues now st.clients) st.vlist with
    | error e =>
        cases e with
        | keyError =>
            intro h
            cases h
        | valueError => exact absurd hres hloop
    | ok p =>
        intro h
        cases h
  · intro now st e
    obtain ⟨v', heq, _⟩ := sync_shape now st
    rw [heq]
    intro h
    cases h

/-- Claim C10: Python evaluates `Client.__init__`'s default
`start_date=time.time()` once, when the class body is executed at module load —
not at each construction.  Two clients constructed without an explicit
`start_date` at any two later times `now₁ ≠ now₂` receive the identical
`start_date`, namely the module-load clock value `defTime`. -/
theorem C10_default_start_date_shared (defTime : Int) (n1 i1 : String) (now1 : Int)
    (n2 i2 : String) (now2 : Int) :
    (mkClientDefaultStart defTime n1 i1 now1).start_date =
      (mkClientDefaultStart defTime n2 i2 now2).start_date ∧
    (mkClientDefaultStart defTime n1 i1 now1).start_date = defTime :=
  ⟨rfl, rfl⟩

end Useray
